import Mathlib

/-!
Shallow embedding of the Bountrip NEAR smart contract
(`src/unnamed/part_000`, second variant, the full-featured class with
owner / fee logic; `src/unnamed/part_001` is the same contract without
fees).

Modelling conventions:
* JS `BigInt` amounts (stored as decimal strings in the contract) are
  modelled as `Int`; the attached deposit (a u128) is a `Nat`.
* The persistent `UnorderedMap<string, Bounty>` keyed by
  `bountyId.toString()` is modelled as an association list
  `List (Nat × Bounty)` with first-occurrence lookup/update.
* `assert(cond, msg)` aborts the NEAR transaction, rolling back all
  state; entry points are therefore modelled as
  `ContractState → ... → Except ContractError _` where an error leaves
  the state untouched.  Each assert message is mapped to the error kind
  the design document gives it.
* The fire-and-forget `promiseBatchActionTransfer` calls are modelled
  as the list of pending transfers `(recipient, amount)` the call
  issues, in issue order.
-/

deriving instance DecidableEq for Except

namespace Bountrip

/-- The characters `String.prototype.trim()` removes: the ECMAScript
WhiteSpace production — TAB `U+0009`, VT `U+000B`, FF `U+000C`,
SP `U+0020`, NBSP `U+00A0`, ZWNBSP `U+FEFF` and the Unicode
Space_Separator (Zs) category (`U+1680`, `U+2000`–`U+200A`, `U+202F`,
`U+205F`, `U+3000`) — together with the LineTerminator production —
LF `U+000A`, CR `U+000D`, LS `U+2028`, PS `U+2029`. -/
def jsWhitespace (c : Char) : Bool :=
  c.toNat = 0x09 || c.toNat = 0x0A || c.toNat = 0x0B || c.toNat = 0x0C ||
  c.toNat = 0x0D || c.toNat = 0x20 || c.toNat = 0xA0 || c.toNat = 0x1680 ||
  (0x2000 ≤ c.toNat && c.toNat ≤ 0x200A) || c.toNat = 0x202F ||
  c.toNat = 0x205F || c.toNat = 0x3000 || c.toNat = 0x2028 ||
  c.toNat = 0x2029 || c.toNat = 0xFEFF

/-- JS `String.prototype.trim()`: the string with the ECMAScript
whitespace characters removed from both ends, as an executable list
traversal. -/
def strTrim (s : String) : String :=
  ⟨(((s.data.dropWhile jsWhitespace).reverse.dropWhile
      jsWhitespace).reverse)⟩

/-- Error kinds (one per `assert` in the source, named as in the design
document §7). -/
inductive ContractError where
  | InvalidInput
  | PaymentMismatch
  | NotFound
  | BountyClosed
  | Unauthorized
  | OwnerNotSet
  | PrizeCountMismatch
  | NotAParticipant (who : String)
  deriving DecidableEq, Repr

/-- The `Bounty` interface of the source. `totalPrize` and `prizes` are
decimal strings for BigInt in the source, modelled as `Int`. -/
structure Bounty where
  id : Nat
  creator : String
  totalPrize : Int
  prizes : List Int
  participants : List String
  winners : List String
  isActive : Bool
  deriving DecidableEq, Repr

/-- First-occurrence lookup in the association-list model of
`UnorderedMap`. -/
def mapGet : List (Nat × Bounty) → Nat → Option Bounty
  | [], _ => none
  | (k, b) :: rest, i => if k = i then some b else mapGet rest i

/-- `UnorderedMap.set`: replace the first binding of the key, or append
a new binding. -/
def mapSet : List (Nat × Bounty) → Nat → Bounty → List (Nat × Bounty)
  | [], k, b => [(k, b)]
  | (k0, b0) :: rest, k, b =>
    if k0 = k then (k, b) :: rest else (k0, b0) :: mapSet rest k b

/-- The contract's persistent fields: `bounties`, `bountyCount`,
`owner` (empty string = unset), `feePercentage`. -/
structure ContractState where
  bounties : List (Nat × Bounty)
  bountyCount : Nat
  owner : String
  feePercentage : Nat
  deriving DecidableEq, Repr

/-- Constructor: empty map, zero counter, no owner, default fee 2%. -/
def initState : ContractState :=
  { bounties := [], bountyCount := 0, owner := "", feePercentage := 2 }

/-- `create_bounty({prizes})` with `creator = predecessorAccountId()`
and `deposit = attachedDeposit()`.  Source order of checks:
`prizes` non-empty (`InvalidInput`), then `deposit === total`
(`PaymentMismatch`); on success stores the new bounty at key
`bountyCount`, increments the counter and returns the old counter. -/
def create_bounty (s : ContractState) (creator : String) (deposit : Nat)
    (prizes : List Int) : Except ContractError (Nat × ContractState) :=
  if prizes.isEmpty then
    .error .InvalidInput
  else
    let total : Int := prizes.sum
    if (deposit : Int) = total then
      let bounty : Bounty :=
        { id := s.bountyCount, creator := creator, totalPrize := total,
          prizes := prizes, participants := [], winners := [],
          isActive := true }
      .ok (s.bountyCount,
        { s with bounties := mapSet s.bounties s.bountyCount bounty,
                 bountyCount := s.bountyCount + 1 })
    else
      .error .PaymentMismatch

/-- `participate({bountyId})` with
`participant = predecessorAccountId()`.  Checks existence
(`NotFound`) and `isActive` (`BountyClosed`); a caller already in
`participants` is a logged no-op, otherwise the caller is pushed onto
`participants`. -/
def participate (s : ContractState) (caller : String) (bountyId : Nat) :
    Except ContractError ContractState :=
  match mapGet s.bounties bountyId with
  | none => .error .NotFound
  | some bounty =>
    if bounty.isActive then
      if bounty.participants.contains caller then
        .ok s
      else
        let b1 : Bounty :=
          { bounty with participants := bounty.participants ++ [caller] }
        .ok { s with bounties := mapSet s.bounties bountyId b1 }
    else
      .error .BountyClosed

/-- Per-prize fee of `_distribute_prizes`: 0 when no owner is set,
otherwise `(prizeAmount * BigInt(feePercentage)) / BigInt(100)` —
BigInt division truncates toward zero, i.e. `Int.tdiv`. -/
def computeFee (owner : String) (feePercentage : Nat) (prizeAmount : Int) : Int :=
  if owner = "" then 0
  else Int.tdiv (prizeAmount * (feePercentage : Int)) 100

/-- The `totalFee` accumulated over the loop of `_distribute_prizes`.
The loop runs over indices `0 ≤ i < winners.length` reading
`prizes[i]`; `finalize_bounty` guarantees the two arrays have equal
length, so the index pairing is `winners.zip prizes`. -/
def totalFee (owner : String) (feePercentage : Nat) (b : Bounty) : Int :=
  ((b.winners.zip b.prizes).map fun wp => computeFee owner feePercentage wp.2).sum

/-- `_distribute_prizes(bounty)` as the list of pending transfers it
issues, in order: one transfer of `prizeAmount - fee` per winner
(loop order), then one transfer of `totalFee` to the owner iff
`totalFee > 0`. -/
def distribute_prizes (owner : String) (feePercentage : Nat) (b : Bounty) :
    List (String × Int) :=
  ((b.winners.zip b.prizes).map
      fun wp => (wp.1, wp.2 - computeFee owner feePercentage wp.2)) ++
    (if 0 < totalFee owner feePercentage b then
      [(owner, totalFee owner feePercentage b)]
    else [])

/-- `finalize_bounty({bountyId, winners})` with
`caller = predecessorAccountId()`.  Source order of asserts:
existence (`NotFound`), `isActive` (`BountyClosed`),
`caller === creator` (`Unauthorized`), `winners` non-empty
(`InvalidInput`), `winners.length === prizes.length`
(`PrizeCountMismatch`), every winner a participant
(`NotAParticipant`, failing on the first offender).  On success sets
`winners`, clears `isActive`, persists, and issues the transfers of
`_distribute_prizes`. -/
def finalize_bounty (s : ContractState) (caller : String) (bountyId : Nat)
    (winners : List String) :
    Except ContractError (List (String × Int) × ContractState) :=
  match mapGet s.bounties bountyId with
  | none => .error .NotFound
  | some bounty =>
    if bounty.isActive then
      if caller = bounty.creator then
        if winners.isEmpty then
          .error .InvalidInput
        else
          if bounty.prizes.length = winners.length then
            match winners.find? (fun w => !(bounty.participants.contains w)) with
            | some w => .error (.NotAParticipant w)
            | none =>
              let fin : Bounty := { bounty with winners := winners, isActive := false }
              .ok (distribute_prizes s.owner s.feePercentage fin,
                   { s with bounties := mapSet s.bounties bountyId fin })
          else
            .error .PrizeCountMismatch
      else
        .error .Unauthorized
    else
      .error .BountyClosed

/-- `set_owner({new_owner})` with `caller = predecessorAccountId()`.
If no owner is set the caller becomes owner unconditionally; otherwise
only the current owner may call (`Unauthorized`), and the owner is
reassigned exactly when `new_owner && new_owner.trim().length > 0`. -/
def set_owner (s : ContractState) (caller : String) (new_owner : Option String) :
    Except ContractError ContractState :=
  if s.owner = "" then
    .ok { s with owner := caller }
  else
    if caller = s.owner then
      match new_owner with
      | some n =>
        if n ≠ "" ∧ strTrim n ≠ "" then
          .ok { s with owner := n }
        else
          .ok s
      | none => .ok s
    else
      .error .Unauthorized

/-- `update_fee_percentage({feePercentage})`: owner must be set
(`OwnerNotSet`), caller must be the owner (`Unauthorized`), fee must
be in `[0, 100]` (`InvalidInput`; the lower bound is automatic for a
`Nat`). -/
def update_fee_percentage (s : ContractState) (caller : String) (fp : Nat) :
    Except ContractError ContractState :=
  if s.owner = "" then .error .OwnerNotSet
  else if caller = s.owner then
    if fp ≤ 100 then .ok { s with feePercentage := fp }
    else .error .InvalidInput
  else .error .Unauthorized

/-- The externally triggerable mutating entry points. -/
inductive Op where
  | create (caller : String) (deposit : Nat) (prizes : List Int)
  | part (caller : String) (bountyId : Nat)
  | fin (caller : String) (bountyId : Nat) (winners : List String)
  | setOwner (caller : String) (new_owner : Option String)
  | updateFee (caller : String) (fp : Nat)

/-- One entry-point invocation: a failed assert rolls the transaction
back, leaving the state unchanged. -/
def step (s : ContractState) : Op → ContractState
  | .create c d ps =>
    match create_bounty s c d ps with
    | .ok r => r.2
    | .error _ => s
  | .part c bid =>
    match participate s c bid with
    | .ok s1 => s1
    | .error _ => s
  | .fin c bid ws =>
    match finalize_bounty s c bid ws with
    | .ok r => r.2
    | .error _ => s
  | .setOwner c o =>
    match set_owner s c o with
    | .ok s1 => s1
    | .error _ => s
  | .updateFee c f =>
    match update_fee_percentage s c f with
    | .ok s1 => s1
    | .error _ => s

/-- A sequence of entry-point invocations. -/
def runOps (s : ContractState) (ops : List Op) : ContractState :=
  ops.foldl step s

/-- Number of `create` invocations in a trace that succeed at the
state they run in. -/
def countCreateSuccess : ContractState → List Op → Nat
  | _, [] => 0
  | s, op :: ops =>
    (match op with
      | .create c d ps => if (create_bounty s c d ps).isOk then 1 else 0
      | _ => 0) + countCreateSuccess (step s op) ops

/-- Store invariant: every stored binding has its key below the
counter, an `id` field equal to its key and duplicate-free
`participants`; and every id below the counter is bound. -/
def Inv (s : ContractState) : Prop :=
  (∀ kb ∈ s.bounties,
      kb.1 < s.bountyCount ∧ kb.2.id = kb.1 ∧ kb.2.participants.Nodup) ∧
  (∀ i, i < s.bountyCount → (mapGet s.bounties i).isSome)

instance (s : ContractState) : Decidable (Inv s) := by
  unfold Inv; infer_instance

/-! Concrete states used to instantiate the theorems below: the states
reached from a fresh contract by a `create_bounty` (10 yoctoNEAR, one
prize), then a `participate` by `"p"`, then a `finalize_bounty` naming
`"p"` the winner. -/

/-- The bounty stored by `create_bounty initState "a" 10 [10]`. -/
def wBounty : Bounty :=
  { id := 0, creator := "a", totalPrize := 10, prizes := [10],
    participants := [], winners := [], isActive := true }

/-- The state after `create_bounty initState "a" 10 [10]`. -/
def wState : ContractState :=
  { bounties := [(0, wBounty)], bountyCount := 1, owner := "",
    feePercentage := 2 }

/-- `wBounty` after `"p"` participates. -/
def wBounty1 : Bounty :=
  { wBounty with participants := ["p"] }

/-- The state after `participate wState "p" 0`. -/
def wState1 : ContractState :=
  { wState with bounties := [(0, wBounty1)] }

/-- `wBounty1` finalized with winner list `["p"]`. -/
def fBounty : Bounty :=
  { wBounty1 with winners := ["p"], isActive := false }

/-- The state after `finalize_bounty wState1 "a" 0 ["p"]`. -/
def fState : ContractState :=
  { wState1 with bounties := [(0, fBounty)] }

/-- A fresh contract whose owner is `"alice"`. -/
def aState : ContractState :=
  { bounties := [], bountyCount := 0, owner := "alice", feePercentage := 2 }

/-- A finalized two-prize bounty used to instantiate the distribution
theorems with an owner set. -/
def w3Bounty : Bounty :=
  { id := 0, creator := "c", totalPrize := 150, prizes := [100, 50],
    participants := ["a", "b"], winners := ["a", "b"], isActive := false }

/-- An open two-prize bounty whose single participant `"a"` can be
named winner twice. -/
def w10Bounty : Bounty :=
  { id := 0, creator := "c", totalPrize := 30, prizes := [10, 20],
    participants := ["a"], winners := [], isActive := true }

/-- A state holding `w10Bounty`. -/
def w10State : ContractState :=
  { bounties := [(0, w10Bounty)], bountyCount := 1, owner := "",
    feePercentage := 2 }

/-- `w10Bounty` finalized with the duplicate winner list `["a", "a"]`. -/
def w10Fin : Bounty :=
  { w10Bounty with winners := ["a", "a"], isActive := false }

theorem mapGet_mapSet (m : List (Nat × Bounty)) (k : Nat) (b : Bounty) (i : Nat) :
    mapGet (mapSet m k b) i = if i = k then some b else mapGet m i := by
  induction m with
  | nil =>
    simp only [mapSet, mapGet]
    by_cases h : i = k
    · subst h
      simp
    · have h2 : ¬ k = i := fun hh => h hh.symm
      simp [h, h2]
  | cons kb rest ih =>
    obtain ⟨k0, b0⟩ := kb
    by_cases hk : k0 = k
    · subst hk
      simp only [mapSet, if_pos rfl, mapGet]
      by_cases h : k0 = i
      · subst h
        simp
      · have h2 : ¬ i = k0 := fun hh => h hh.symm
        simp [h, h2, mapGet]
    · simp only [mapSet, if_neg hk, mapGet]
      by_cases h : k0 = i
      · subst h
        simp [hk]
      · simp [h, ih]

theorem mapGet_mem {m : List (Nat × Bounty)} {i : Nat} {b : Bounty}
    (h : mapGet m i = some b) : (i, b) ∈ m := by
  induction m with
  | nil => simp [mapGet] at h
  | cons kb rest ih =>
    obtain ⟨k0, b0⟩ := kb
    by_cases hk : k0 = i
    · subst hk
      simp [mapGet] at h
      simp [h]
    · simp [mapGet, hk] at h
      exact List.mem_cons_of_mem _ (ih h)

theorem mem_mapSet {m : List (Nat × Bounty)} {k : Nat} {b : Bounty}
    {kb : Nat × Bounty} (h : kb ∈ mapSet m k b) : kb = (k, b) ∨ kb ∈ m := by
  induction m with
  | nil => simp [mapSet] at h; simp [h]
  | cons kb0 rest ih =>
    obtain ⟨k0, b0⟩ := kb0
    by_cases hk : k0 = k
    · subst hk
      simp [mapSet] at h
      rcases h with h | h
      · exact Or.inl h
      · exact Or.inr (List.mem_cons_of_mem _ h)
    · simp [mapSet, hk] at h
      rcases h with h | h
      · exact Or.inr (by simp [h])
      · rcases ih h with h1 | h1
        · exact Or.inl h1
        · exact Or.inr (List.mem_cons_of_mem _ h1)

theorem contains_iff {l : List String} {a : String} :
    l.contains a = true ↔ a ∈ l := by
  simp [List.contains]

theorem inv_create {s : ContractState} {c : String} {d : Nat} {ps : List Int}
    {bid : Nat} {s1 : ContractState} (hInv : Inv s)
    (h : create_bounty s c d ps = .ok (bid, s1)) : Inv s1 := by
  simp only [create_bounty] at h
  split at h
  · exact absurd h (by simp)
  · split at h
    · simp only [Except.ok.injEq, Prod.mk.injEq] at h
      obtain ⟨hbid, hs1⟩ := h
      subst hbid
      subst hs1
      constructor
      · intro kb hkb
        rcases mem_mapSet hkb with h1 | h1
        · subst h1
          exact ⟨Nat.lt_succ_self _, rfl, List.nodup_nil⟩
        · obtain ⟨h2, h3, h4⟩ := hInv.1 kb h1
          exact ⟨Nat.lt_succ_of_lt h2, h3, h4⟩
      · intro i hi
        simp only [mapGet_mapSet]
        have hi2 : i < s.bountyCount + 1 := hi
        by_cases hik : i = s.bountyCount
        · simp [hik]
        · simp only [hik, if_false]
          exact hInv.2 i (by omega)
    · exact absurd h (by simp)

theorem inv_participate {s : ContractState} {c : String} {bid : Nat}
    {s1 : ContractState} (hInv : Inv s)
    (h : participate s c bid = .ok s1) : Inv s1 := by
  simp only [participate] at h
  split at h
  · exact absurd h (by simp)
  · rename_i bounty hb
    split at h
    · split at h
      · simp only [Except.ok.injEq] at h
        subst h
        exact hInv
      · rename_i hmem
        simp only [Except.ok.injEq] at h
        subst h
        have hbb := hInv.1 (bid, bounty) (mapGet_mem hb)
        have hnotmem : c ∉ bounty.participants := fun hc =>
          hmem (contains_iff.mpr hc)
        constructor
        · intro kb hkb
          rcases mem_mapSet hkb with h1 | h1
          · subst h1
            refine ⟨hbb.1, hbb.2.1, ?_⟩
            exact List.Nodup.append hbb.2.2 (List.nodup_singleton _)
              (by intro a ha hsin
                  simp at hsin
                  subst hsin
                  exact hnotmem ha)
          · exact hInv.1 kb h1
        · intro i hi
          simp only [mapGet_mapSet]
          by_cases hik : i = bid
          · simp [hik]
          · simp only [hik, if_false]
            exact hInv.2 i hi
    · exact absurd h (by simp)

theorem inv_finalize {s : ContractState} {c : String} {bid : Nat}
    {ws : List String} {t : List (String × Int)} {s1 : ContractState}
    (hInv : Inv s) (h : finalize_bounty s c bid ws = .ok (t, s1)) :
    Inv s1 := by
  simp only [finalize_bounty] at h
  split at h
  · exact absurd h (by simp)
  · rename_i bounty hb
    split at h
    · split at h
      · split at h
        · exact absurd h (by simp)
        · split at h
          · split at h
            · exact absurd h (by simp)
            · simp only [Except.ok.injEq, Prod.mk.injEq] at h
              obtain ⟨ht, hs1⟩ := h
              subst hs1
              have hbb := hInv.1 (bid, bounty) (mapGet_mem hb)
              constructor
              · intro kb hkb
                rcases mem_mapSet hkb with h1 | h1
                · subst h1
                  exact ⟨hbb.1, hbb.2.1, hbb.2.2⟩
                · exact hInv.1 kb h1
              · intro i hi
                simp only [mapGet_mapSet]
                by_cases hik : i = bid
                · simp [hik]
                · simp only [hik, if_false]
                  exact hInv.2 i hi
          · exact absurd h (by simp)
      · exact absurd h (by simp)
    · exact absurd h (by simp)

theorem inv_set_owner {s : ContractState} {c : String} {o : Option String}
    {s1 : ContractState} (hInv : Inv s) (h : set_owner s c o = .ok s1) :
    Inv s1 := by
  unfold set_owner at h
  have hsame : ∀ ow : String,
      Inv { s with owner := ow } := by
    intro ow
    exact hInv
  split at h
  · simp only [Except.ok.injEq] at h
    subst h
    exact hsame c
  · split at h
    · split at h
      · split at h
        · simp only [Except.ok.injEq] at h
          subst h
          exact hsame _
        · simp only [Except.ok.injEq] at h
          subst h
          exact hInv
      · simp only [Except.ok.injEq] at h
        subst h
        exact hInv
    · exact absurd h (by simp)

theorem inv_update_fee {s : ContractState} {c : String} {fp : Nat}
    {s1 : ContractState} (hInv : Inv s)
    (h : update_fee_percentage s c fp = .ok s1) : Inv s1 := by
  unfold update_fee_percentage at h
  split at h
  · exact absurd h (by simp)
  · split at h
    · split at h
      · simp only [Except.ok.injEq] at h
        subst h
        exact hInv
      · exact absurd h (by simp)
    · exact absurd h (by simp)

theorem inv_step {s : ContractState} (hInv : Inv s) (op : Op) :
    Inv (step s op) := by
  cases op with
  | create c d ps =>
    simp only [step]
    cases h : create_bounty s c d ps with
    | ok r =>
      obtain ⟨bid, s1⟩ := r
      exact inv_create hInv h
    | error e => exact hInv
  | part c bid =>
    simp only [step]
    cases h : participate s c bid with
    | ok s1 => exact inv_participate hInv h
    | error e => exact hInv
  | fin c bid ws =>
    simp only [step]
    cases h : finalize_bounty s c bid ws with
    | ok r =>
      obtain ⟨t, s1⟩ := r
      exact inv_finalize hInv h
    | error e => exact hInv
  | setOwner c o =>
    simp only [step]
    cases h : set_owner s c o with
    | ok s1 => exact inv_set_owner hInv h
    | error e => exact hInv
  | updateFee c f =>
    simp only [step]
    cases h : update_fee_percentage s c f with
    | ok s1 => exact inv_update_fee hInv h
    | error e => exact hInv


theorem inv_runOps {s : ContractState} (hInv : Inv s) (ops : List Op) :
    Inv (runOps s ops) := by
  induction ops generalizing s with
  | nil => exact hInv
  | cons op ops ih => exact ih (inv_step hInv op)

theorem inv_init : Inv initState := by decide

theorem create_bounty_ok_shape {s : ContractState} {c : String} {d : Nat}
    {ps : List Int} {bid : Nat} {s1 : ContractState}
    (h : create_bounty s c d ps = .ok (bid, s1)) :
    ps ≠ [] ∧ (d : Int) = ps.sum ∧ bid = s.bountyCount ∧
    s1 = { s with
      bounties := mapSet s.bounties s.bountyCount
        ({ id := s.bountyCount, creator := c, totalPrize := ps.sum,
           prizes := ps, participants := [], winners := [],
           isActive := true }),
      bountyCount := s.bountyCount + 1 } := by
  simp only [create_bounty] at h
  split at h
  · exact absurd h (by simp)
  · rename_i hps
    split at h
    · rename_i hd
      simp only [Except.ok.injEq, Prod.mk.injEq] at h
      exact ⟨by simpa [List.isEmpty_iff] using hps, hd, h.1.symm, h.2.symm⟩
    · exact absurd h (by simp)

theorem participate_ok_shape {s : ContractState} {c : String} {bid : Nat}
    {s1 : ContractState} (h : participate s c bid = .ok s1) :
    ∃ b, mapGet s.bounties bid = some b ∧ b.isActive = true ∧
      ((c ∈ b.participants ∧ s1 = s) ∨
        (c ∉ b.participants ∧
          s1 = { s with bounties := mapSet s.bounties bid ({ b with participants := b.participants ++ [c] }) })) := by
  simp only [participate] at h
  split at h
  · exact absurd h (by simp)
  · rename_i b hb
    split at h
    · rename_i hact
      split at h
      · rename_i hmem
        simp only [Except.ok.injEq] at h
        exact ⟨b, hb, hact, Or.inl ⟨contains_iff.mp hmem, h.symm⟩⟩
      · rename_i hmem
        simp only [Except.ok.injEq] at h
        exact ⟨b, hb, hact,
          Or.inr ⟨fun hc => hmem (contains_iff.mpr hc), h.symm⟩⟩
    · exact absurd h (by simp)

theorem finalize_ok_shape {s : ContractState} {c : String} {bid : Nat}
    {ws : List String} {t : List (String × Int)} {s1 : ContractState}
    (h : finalize_bounty s c bid ws = .ok (t, s1)) :
    ∃ b, mapGet s.bounties bid = some b ∧ b.isActive = true ∧
      c = b.creator ∧ ws ≠ [] ∧ b.prizes.length = ws.length ∧
      (∀ w ∈ ws, w ∈ b.participants) ∧
      t = distribute_prizes s.owner s.feePercentage
        ({ b with winners := ws, isActive := false }) ∧
      s1 = { s with bounties := mapSet s.bounties bid ({ b with winners := ws, isActive := false }) } := by
  simp only [finalize_bounty] at h
  split at h
  · exact absurd h (by simp)
  · rename_i b hb
    split at h
    · rename_i hact
      split at h
      · rename_i hcr
        split at h
        · exact absurd h (by simp)
        · rename_i hws
          split at h
          · rename_i hlen
            split at h
            · exact absurd h (by simp)
            · rename_i hfind
              simp only [Except.ok.injEq, Prod.mk.injEq] at h
              refine ⟨b, hb, hact, hcr, by simpa [List.isEmpty_iff] using hws,
                hlen, ?_, h.1.symm, h.2.symm⟩
              intro w hw
              have := List.find?_eq_none.mp hfind w hw
              simpa [contains_iff] using this
          · exact absurd h (by simp)
      · exact absurd h (by simp)
    · exact absurd h (by simp)

theorem set_owner_ok_shape {s : ContractState} {c : String}
    {o : Option String} {s1 : ContractState} (h : set_owner s c o = .ok s1) :
    s1.bounties = s.bounties ∧ s1.bountyCount = s.bountyCount := by
  simp only [set_owner] at h
  split at h
  · simp only [Except.ok.injEq] at h
    subst h
    exact ⟨rfl, rfl⟩
  · split at h
    · split at h
      · split at h
        · simp only [Except.ok.injEq] at h
          subst h
          exact ⟨rfl, rfl⟩
        · simp only [Except.ok.injEq] at h
          subst h
          exact ⟨rfl, rfl⟩
      · simp only [Except.ok.injEq] at h
        subst h
        exact ⟨rfl, rfl⟩
    · exact absurd h (by simp)

theorem update_fee_ok_shape {s : ContractState} {c : String} {fp : Nat}
    {s1 : ContractState} (h : update_fee_percentage s c fp = .ok s1) :
    s1.bounties = s.bounties ∧ s1.bountyCount = s.bountyCount := by
  simp only [update_fee_percentage] at h
  split at h
  · exact absurd h (by simp)
  · split at h
    · split at h
      · simp only [Except.ok.injEq] at h
        subst h
        exact ⟨rfl, rfl⟩
      · exact absurd h (by simp)
    · exact absurd h (by simp)

theorem preserve_inactive_step {s : ContractState} {bid : Nat} {b : Bounty}
    (hInv : Inv s) (hb : mapGet s.bounties bid = some b)
    (hina : b.isActive = false) (op : Op) :
    mapGet (step s op).bounties bid = some b := by
  have hlt : bid < s.bountyCount := (hInv.1 (bid, b) (mapGet_mem hb)).1
  cases op with
  | create c d ps =>
    simp only [step]
    cases h : create_bounty s c d ps with
    | error e => exact hb
    | ok r =>
      obtain ⟨bid2, s1⟩ := r
      obtain ⟨-, -, -, hs1⟩ := create_bounty_ok_shape h
      subst hs1
      simp only [mapGet_mapSet]
      rw [if_neg (by omega)]
      exact hb
  | part c bid2 =>
    simp only [step]
    cases h : participate s c bid2 with
    | error e => exact hb
    | ok s1 =>
      obtain ⟨b2, hb2, hact2, hcase⟩ := participate_ok_shape h
      by_cases heq : bid2 = bid
      · subst heq
        rw [hb] at hb2
        cases hb2
        simp [hina] at hact2
      · rcases hcase with ⟨-, rfl⟩ | ⟨-, rfl⟩
        · exact hb
        · simp only [mapGet_mapSet]
          rw [if_neg (fun hh => heq hh.symm)]
          exact hb
  | fin c bid2 ws =>
    simp only [step]
    cases h : finalize_bounty s c bid2 ws with
    | error e => exact hb
    | ok r =>
      obtain ⟨t, s1⟩ := r
      obtain ⟨b2, hb2, hact2, -, -, -, -, -, hs1⟩ := finalize_ok_shape h
      by_cases heq : bid2 = bid
      · subst heq
        rw [hb] at hb2
        cases hb2
        simp [hina] at hact2
      · subst hs1
        simp only [mapGet_mapSet]
        rw [if_neg (fun hh => heq hh.symm)]
        exact hb
  | setOwner c o =>
    simp only [step]
    cases h : set_owner s c o with
    | error e => exact hb
    | ok s1 =>
      rw [(set_owner_ok_shape h).1]
      exact hb
  | updateFee c f =>
    simp only [step]
    cases h : update_fee_percentage s c f with
    | error e => exact hb
    | ok s1 =>
      rw [(update_fee_ok_shape h).1]
      exact hb

theorem preserve_inactive_runOps {s : ContractState} {bid : Nat} {b : Bounty}
    (hInv : Inv s) (hb : mapGet s.bounties bid = some b)
    (hina : b.isActive = false) (ops : List Op) :
    mapGet (runOps s ops).bounties bid = some b := by
  induction ops generalizing s with
  | nil => exact hb
  | cons op ops ih =>
    exact ih (inv_step hInv op) (preserve_inactive_step hInv hb hina op)

theorem step_bountyCount (s : ContractState) (op : Op) :
    (step s op).bountyCount = s.bountyCount +
      (match op with
        | .create c d ps => if (create_bounty s c d ps).isOk then 1 else 0
        | _ => 0) := by
  cases op with
  | create c d ps =>
    simp only [step]
    cases h : create_bounty s c d ps with
    | error e => simp [Except.isOk, Except.toBool]
    | ok r =>
      obtain ⟨bid, s1⟩ := r
      obtain ⟨-, -, -, hs1⟩ := create_bounty_ok_shape h
      subst hs1
      simp [Except.isOk, Except.toBool]
  | part c bid =>
    simp only [step]
    cases h : participate s c bid with
    | error e => rfl
    | ok s1 =>
      obtain ⟨b, -, -, hcase⟩ := participate_ok_shape h
      rcases hcase with ⟨-, rfl⟩ | ⟨-, rfl⟩ <;> rfl
  | fin c bid ws =>
    simp only [step]
    cases h : finalize_bounty s c bid ws with
    | error e => rfl
    | ok r =>
      obtain ⟨t, s1⟩ := r
      obtain ⟨b, -, -, -, -, -, -, -, hs1⟩ := finalize_ok_shape h
      subst hs1
      rfl
  | setOwner c o =>
    simp only [step]
    cases h : set_owner s c o with
    | error e => rfl
    | ok s1 => simp [(set_owner_ok_shape h).2]
  | updateFee c f =>
    simp only [step]
    cases h : update_fee_percentage s c f with
    | error e => rfl
    | ok s1 => simp [(update_fee_ok_shape h).2]

theorem runOps_bountyCount (ops : List Op) (s : ContractState) :
    (runOps s ops).bountyCount = s.bountyCount + countCreateSuccess s ops := by
  induction ops generalizing s with
  | nil => simp [runOps, countCreateSuccess]
  | cons op ops ih =>
    show (runOps (step s op) ops).bountyCount = _
    rw [ih (step s op)]
    rw [step_bountyCount s op]
    simp only [countCreateSuccess]
    omega

theorem sum_map_sub {α : Type} (l : List α) (g h : α → Int) :
    (l.map fun x => g x - h x).sum = (l.map g).sum - (l.map h).sum := by
  induction l with
  | nil => simp
  | cons a l ih =>
    simp only [List.map_cons, List.sum_cons, ih]
    ring

theorem computeFee_nonneg {o : String} {f : Nat} {p : Int} (hp : 0 ≤ p) :
    0 ≤ computeFee o f p := by
  unfold computeFee
  split
  · exact le_refl 0
  · exact Int.tdiv_nonneg (mul_nonneg hp (Int.natCast_nonneg f)) (by norm_num)

theorem totalFee_nonneg {o : String} {f : Nat} {b : Bounty}
    (hp : ∀ p ∈ b.prizes, 0 ≤ p) : 0 ≤ totalFee o f b := by
  unfold totalFee
  apply List.sum_nonneg
  intro x hx
  simp only [List.mem_map] at hx
  obtain ⟨wp, hwp, rfl⟩ := hx
  exact computeFee_nonneg (hp wp.2 (List.of_mem_zip (by simpa using hwp)).2)

/-- C1: for every non-empty prize list and every attached payment,
`create_bounty` succeeds and returns a bounty id exactly when the
payment equals the sum of the prizes, and fails with `PaymentMismatch`
otherwise; on success the stored record has `isActive = true`, empty
`participants` and `winners`, and `totalPrize` equal to the sum of the
prizes. -/
theorem create_bounty_payment_spec (s : ContractState) (c : String)
    (d : Nat) (ps : List Int) (hps : ps ≠ []) :
    ((create_bounty s c d ps).isOk ↔ (d : Int) = ps.sum) ∧
    ((d : Int) ≠ ps.sum →
      create_bounty s c d ps = Except.error ContractError.PaymentMismatch) ∧
    (∀ bid s1, create_bounty s c d ps = Except.ok (bid, s1) →
      bid = s.bountyCount ∧
      mapGet s1.bounties bid = some { id := s.bountyCount, creator := c, totalPrize := ps.sum, prizes := ps, participants := [], winners := [], isActive := true }) := by
  have hne : ¬ (ps.isEmpty = true) := by simp [List.isEmpty_iff, hps]
  refine ⟨⟨?_, ?_⟩, ?_, ?_⟩
  · intro hok
    by_cases hd : (d : Int) = ps.sum
    · exact hd
    · exfalso
      simp [create_bounty, hne, hd, Except.isOk, Except.toBool] at hok
  · intro hd
    simp [create_bounty, hne, hd, Except.isOk, Except.toBool]
  · intro hd
    simp [create_bounty, hne, hd]
  · intro bid s1 hok
    obtain ⟨-, -, hbid, hs1⟩ := create_bounty_ok_shape hok
    subst hs1
    subst hbid
    exact ⟨rfl, by simp [mapGet_mapSet]⟩

/-- Witness for C1: a matching payment of 10 for prizes `[10]` succeeds
and stores the expected record; a payment of 7 fails with
`PaymentMismatch`. -/
theorem create_bounty_payment_spec_witness :
    ((create_bounty initState "a" 10 [10]).isOk ↔ (10 : Int) = ([10] : List Int).sum) ∧
    create_bounty initState "a" 7 [10] = Except.error ContractError.PaymentMismatch ∧
    (0 = initState.bountyCount ∧
      mapGet wState.bounties 0 = some { id := initState.bountyCount, creator := "a", totalPrize := ([10] : List Int).sum, prizes := [10], participants := [], winners := [], isActive := true }) :=
  ⟨(create_bounty_payment_spec initState "a" 10 [10] (by decide)).1,
   (create_bounty_payment_spec initState "a" 7 [10] (by decide)).2.1 (by decide),
   (create_bounty_payment_spec initState "a" 10 [10] (by decide)).2.2 0 wState (by decide)⟩

/-- C2 counterexample: the code only validates non-emptiness of
`prizes`; a zero (non-positive) prize amount is accepted whenever the
payment matches, instead of failing with `InvalidInput` as the claim
requires. -/
theorem create_bounty_zero_prize_accepted :
    create_bounty initState "a" 0 [0] ≠ Except.error ContractError.InvalidInput ∧
    (create_bounty initState "a" 0 [0]).isOk = true := by
  decide

/-- C2 (amended): `create_bounty` fails with `InvalidInput` exactly
when the prize list is empty; non-positive amounts are not rejected. -/
theorem create_bounty_invalidInput_iff (s : ContractState) (c : String)
    (d : Nat) (ps : List Int) :
    create_bounty s c d ps = Except.error ContractError.InvalidInput ↔ ps = [] := by
  constructor
  · intro h
    by_cases hne : ps.isEmpty
    · exact List.isEmpty_iff.mp hne
    · by_cases hd : (d : Int) = ps.sum <;> simp [create_bounty, hne, hd] at h
  · intro h
    subst h
    rfl

/-- Witness for C2 (amended): the empty prize list is rejected with
`InvalidInput` for an arbitrary deposit. -/
theorem create_bounty_invalidInput_iff_witness :
    create_bounty initState "a" 5 [] = Except.error ContractError.InvalidInput :=
  (create_bounty_invalidInput_iff initState "a" 5 []).mpr rfl

/-- C4: the per-prize fee is 0 when no owner is set, and otherwise is
`prizeAmount * feePercentage / 100` in exact integer arithmetic with
truncation toward zero, which agrees with the floor for the
non-negative amounts the contract handles; at `feePercentage = 2` and
prize `10^24` the fee is `2 * 10^22` and the net amount
`98 * 10^22`. -/
theorem computeFee_spec :
    (∀ (f : Nat) (p : Int), computeFee "" f p = 0) ∧
    (∀ (o : String) (f : Nat) (p : Int), o ≠ "" →
      computeFee o f p = Int.tdiv (p * (f : Int)) 100) ∧
    (∀ (o : String) (f : Nat) (p : Int), o ≠ "" → 0 ≤ p →
      computeFee o f p = Int.fdiv (p * (f : Int)) 100) ∧
    computeFee "owner" 2 1000000000000000000000000 = 20000000000000000000000 ∧
    1000000000000000000000000 - computeFee "owner" 2 1000000000000000000000000 = 980000000000000000000000 := by
  refine ⟨?_, ?_, ?_, ?_, ?_⟩
  · intro f p
    simp [computeFee]
  · intro o f p ho
    simp [computeFee, ho]
  · intro o f p ho hp
    rw [show computeFee o f p = Int.tdiv (p * (f : Int)) 100 by simp [computeFee, ho]]
    exact (Int.fdiv_eq_tdiv (mul_nonneg hp (Int.natCast_nonneg f)) (by norm_num)).symm
  · decide
  · decide

/-- Witness for C4: with an owner set, the fee for prize 7 at 3% is the
truncated quotient of 21 by 100, which is also its floor. -/
theorem computeFee_spec_witness :
    computeFee "owner" 3 7 = Int.tdiv (7 * (3 : Nat) : Int) 100 ∧
    computeFee "owner" 3 7 = Int.fdiv (7 * (3 : Nat) : Int) 100 :=
  ⟨computeFee_spec.2.1 "owner" 3 7 (by decide),
   computeFee_spec.2.2.1 "owner" 3 7 (by decide) (by decide)⟩

/-- C8 counterexample: with owner `"alice"`, the owner calling
`set_owner` with the non-empty new owner `" "` does not reassign
ownership (the code additionally requires the trimmed string to be
non-empty), contradicting the claim that a non-empty new owner is
always applied. -/
theorem set_owner_whitespace_cex :
    (" " : String) ≠ "" ∧
    set_owner aState "alice" (some " ") = Except.ok aState ∧
    set_owner aState "alice" (some " ") ≠ Except.ok ({ aState with owner := " " }) := by
  refine ⟨by decide, by decide, by decide⟩

/-- C8 (amended): the first caller becomes owner unconditionally when
no owner is set; afterwards a non-owner caller fails with
`Unauthorized` leaving the owner unchanged, and the current owner
reassigns ownership exactly when the supplied new owner is non-blank
(non-empty after trimming whitespace), the owner being unchanged
otherwise. -/
theorem set_owner_spec (s : ContractState) (c : String) (o : Option String) :
    (s.owner = "" → set_owner s c o = Except.ok ({ s with owner := c })) ∧
    (s.owner ≠ "" → c ≠ s.owner →
      set_owner s c o = Except.error ContractError.Unauthorized) ∧
    (s.owner ≠ "" → c = s.owner → ∀ n, o = some n → strTrim n ≠ "" →
      set_owner s c o = Except.ok ({ s with owner := n })) ∧
    (s.owner ≠ "" → c = s.owner → ∀ n, o = some n → strTrim n = "" →
      set_owner s c o = Except.ok s) ∧
    (s.owner ≠ "" → c = s.owner → o = none → set_owner s c o = Except.ok s) := by
  refine ⟨?_, ?_, ?_, ?_, ?_⟩
  · intro h
    simp [set_owner, h]
  · intro h hc
    simp [set_owner, h, hc]
  · intro h hc n hn htrim
    subst hn
    have hne : n ≠ "" := by
      intro hcontra
      subst hcontra
      exact htrim rfl
    simp [set_owner, h, hc, hne, htrim]
  · intro h hc n hn htrim
    subst hn
    simp [set_owner, h, hc, htrim]
  · intro h hc hn
    subst hn
    simp [set_owner, h, hc]

/-- Witness for C8 (amended): bootstrap, unauthorized caller,
reassignment to `"bob"`, blank new owner ignored, and absent new owner
ignored, all at concrete states. -/
theorem set_owner_spec_witness :
    set_owner initState "alice" none = Except.ok ({ initState with owner := "alice" }) ∧
    set_owner aState "bob" none = Except.error ContractError.Unauthorized ∧
    set_owner aState "alice" (some "bob") = Except.ok ({ aState with owner := "bob" }) ∧
    set_owner aState "alice" (some " ") = Except.ok aState ∧
    set_owner aState "alice" none = Except.ok aState :=
  ⟨(set_owner_spec initState "alice" none).1 (by decide),
   (set_owner_spec aState "bob" none).2.1 (by decide) (by decide),
   (set_owner_spec aState "alice" (some "bob")).2.2.1 (by decide) (by decide) "bob" rfl (by decide),
   (set_owner_spec aState "alice" (some " ")).2.2.2.1 (by decide) (by decide) " " rfl (by decide),
   (set_owner_spec aState "alice" none).2.2.2.2 (by decide) (by decide) rfl⟩

theorem distribute_prizes_sum (o : String) (f : Nat) (b : Bounty)
    (hlen : b.winners.length = b.prizes.length)
    (htot : b.totalPrize = b.prizes.sum)
    (hpos : ∀ p ∈ b.prizes, 0 ≤ p) :
    ((distribute_prizes o f b).map Prod.snd).sum = b.totalPrize := by
  have htfnn : 0 ≤ totalFee o f b := totalFee_nonneg hpos
  unfold distribute_prizes
  rw [List.map_append, List.sum_append, List.map_map]
  have h2 : ((b.winners.zip b.prizes).map
        ((fun q : String × Int => q.2) ∘ fun wp => (wp.1, wp.2 - computeFee o f wp.2))).sum
      = ((b.winners.zip b.prizes).map (fun wp : String × Int => wp.2)).sum - totalFee o f b := by
    unfold totalFee
    exact sum_map_sub (b.winners.zip b.prizes) (fun wp => wp.2)
      (fun wp => computeFee o f wp.2)
  rw [h2]
  have h3 : ((b.winners.zip b.prizes).map fun wp : String × Int => wp.2) = b.prizes :=
    List.map_snd_zip _ _ (le_of_eq hlen.symm)
  rw [h3, ← htot]
  by_cases hpos2 : 0 < totalFee o f b
  · simp only [hpos2, if_true, ite_true, List.map_cons, List.map_nil,
      List.sum_cons, List.sum_nil]
    omega
  · have h0 : totalFee o f b = 0 := le_antisymm (not_lt.mp hpos2) htfnn
    simp [hpos2, h0]

/-- C3: for a finalized bounty with as many winners as prizes, a set
owner and a fee percentage in `[0, 100]`, distribution issues exactly
one transfer per winner in winner-array order of amount
`p[i] - tdiv (p[i] * feePercentage) 100`, followed by one transfer of
the accumulated fee to the owner exactly when that fee is positive,
and the amounts transferred sum to `totalPrize` (for every owner
value, set or not). -/
theorem distribute_prizes_spec (o : String) (f : Nat) (b : Bounty)
    (how : o ≠ "") (hlen : b.winners.length = b.prizes.length)
    (htot : b.totalPrize = b.prizes.sum) (hf : f ≤ 100)
    (hpos : ∀ p ∈ b.prizes, 0 ≤ p) :
    distribute_prizes o f b =
      ((b.winners.zip b.prizes).map fun wp => (wp.1, wp.2 - Int.tdiv (wp.2 * (f : Int)) 100)) ++
        (if 0 < totalFee o f b then [(o, totalFee o f b)] else []) ∧
    (((b.winners.zip b.prizes).map fun wp => (wp.1, wp.2 - Int.tdiv (wp.2 * (f : Int)) 100)).map Prod.fst) = b.winners ∧
    0 ≤ totalFee o f b ∧
    (∀ ow : String, ((distribute_prizes ow f b).map Prod.snd).sum = b.totalPrize) := by
  have hfee : ∀ p : Int, computeFee o f p = Int.tdiv (p * (f : Int)) 100 := by
    intro p
    simp [computeFee, how]
  refine ⟨?_, ?_, totalFee_nonneg hpos, ?_⟩
  · simp [distribute_prizes, hfee]
  · rw [List.map_map]
    exact List.map_fst_zip _ _ (le_of_eq hlen)
  · intro ow
    exact distribute_prizes_sum ow f b hlen htot hpos

/-- Witness for C3: for the finalized two-prize bounty `w3Bounty` at a
2% fee with owner set, the transferred amounts sum to the total
prize. -/
theorem distribute_prizes_spec_witness :
    ((distribute_prizes "owner" 2 w3Bounty).map Prod.snd).sum = w3Bounty.totalPrize :=
  (distribute_prizes_spec "owner" 2 w3Bounty (by decide) (by decide) (by decide)
    (by decide) (by decide)).2.2.2 "owner"

/-- C5: when an open bounty is finalized by its creator with a
length-matching winner list containing a non-participant,
`finalize_bounty` fails with `NotAParticipant` naming the first
offending identity (which is among the winners and not a participant),
and the state, hence the bounty record, is unchanged. -/
theorem finalize_notAParticipant (s : ContractState) (c : String)
    (bid : Nat) (ws : List String) (b : Bounty)
    (hb : mapGet s.bounties bid = some b) (hact : b.isActive = true)
    (hc : c = b.creator) (hlen : b.prizes.length = ws.length)
    (hbad : ∃ w ∈ ws, w ∉ b.participants) :
    (ws.find? (fun w => !(b.participants.contains w))).isSome = true ∧
    (∀ w0, ws.find? (fun w => !(b.participants.contains w)) = some w0 →
      finalize_bounty s c bid ws = Except.error (ContractError.NotAParticipant w0) ∧
      w0 ∈ ws ∧ w0 ∉ b.participants) ∧
    step s (Op.fin c bid ws) = s := by
  obtain ⟨w, hw, hnw⟩ := hbad
  have hne : ¬ (ws.isEmpty = true) := by
    cases ws with
    | nil => simp at hw
    | cons a l => simp
  have hfindsome : (ws.find? (fun w => !(b.participants.contains w))).isSome = true := by
    rw [List.find?_isSome]
    exact ⟨w, hw, by simp [hnw]⟩
  cases hfind : ws.find? (fun w => !(b.participants.contains w)) with
  | none =>
    rw [hfind] at hfindsome
    simp at hfindsome
  | some w0 =>
    have herr : finalize_bounty s c bid ws
        = Except.error (ContractError.NotAParticipant w0) := by
      simp only [finalize_bounty, hb, hact, hc, hlen, hfind]
      simp [hne]
    refine ⟨rfl, ?_, by simp only [step, herr]⟩
    intro w1 hfind1
    injection hfind1 with hw1
    subst hw1
    refine ⟨herr, List.mem_of_find?_eq_some hfind, ?_⟩
    have hpred := List.find?_some hfind
    intro hmem
    rw [contains_iff.mpr hmem] at hpred
    simp at hpred

/-- Witness for C5: finalizing `w10State` with winners `["a", "x"]`
fails naming `"x"`, which never participated, and leaves the state
unchanged. -/
theorem finalize_notAParticipant_witness :
    (((["a", "x"] : List String).find? (fun w => !(w10Bounty.participants.contains w))).isSome = true) ∧
    (finalize_bounty w10State "c" 0 ["a", "x"] = Except.error (ContractError.NotAParticipant "x") ∧
      "x" ∈ (["a", "x"] : List String) ∧ "x" ∉ w10Bounty.participants) ∧
    step w10State (Op.fin "c" 0 ["a", "x"]) = w10State :=
  have h := finalize_notAParticipant w10State "c" 0 ["a", "x"] w10Bounty
    (by decide) (by decide) (by decide) (by decide) (by decide)
  ⟨h.1, h.2.1 "x" (by decide), h.2.2⟩

/-- C10: `finalize_bounty` does not require distinct winners: a winner
list that repeats a participant is accepted whenever each entry is a
participant and the length matches the prize count, and the per-winner
transfers name `winners[i]` at position `i`, so a repeated participant
receives one transfer per position it occupies. -/
theorem finalize_duplicate_winners (s : ContractState) (c : String)
    (bid : Nat) (ws : List String) (b : Bounty)
    (hb : mapGet s.bounties bid = some b) (hact : b.isActive = true)
    (hc : c = b.creator) (hne : ws ≠ []) (hlen : b.prizes.length = ws.length)
    (hall : ∀ w ∈ ws, w ∈ b.participants) :
    finalize_bounty s c bid ws = Except.ok (distribute_prizes s.owner s.feePercentage ({ b with winners := ws, isActive := false }), { s with bounties := mapSet s.bounties bid ({ b with winners := ws, isActive := false }) }) ∧
    ((distribute_prizes s.owner s.feePercentage ({ b with winners := ws, isActive := false })).take ws.length).map Prod.fst = ws ∧
    (∀ x, (((distribute_prizes s.owner s.feePercentage ({ b with winners := ws, isActive := false })).take ws.length).map Prod.fst).count x = ws.count x) := by
  have hfind : ws.find? (fun w => !(b.participants.contains w)) = none := by
    rw [List.find?_eq_none]
    intro x hx
    simp [hall x hx]
  have hnee : ¬ (ws.isEmpty = true) := by simp [List.isEmpty_iff, hne]
  have h2 : ((distribute_prizes s.owner s.feePercentage ({ b with winners := ws, isActive := false })).take ws.length).map Prod.fst = ws := by
    simp only [distribute_prizes]
    have hlz : ((ws.zip b.prizes).map fun wp => (wp.1, wp.2 - computeFee s.owner s.feePercentage wp.2)).length = ws.length := by
      simp [List.length_zip, hlen]
    rw [List.take_left' hlz, List.map_map]
    exact List.map_fst_zip _ _ (le_of_eq hlen.symm)
  refine ⟨?_, h2, fun x => by rw [h2]⟩
  simp only [finalize_bounty, hb, hact, hc, hlen, hfind]
  simp [hnee]

/-- Witness for C10: the single participant `"a"` is accepted as winner
of both prizes of `w10State` and receives two transfers, one per
position. -/
theorem finalize_duplicate_winners_witness :
    finalize_bounty w10State "c" 0 ["a", "a"] = Except.ok (distribute_prizes w10State.owner w10State.feePercentage w10Fin, { w10State with bounties := mapSet w10State.bounties 0 w10Fin }) ∧
    ((distribute_prizes w10State.owner w10State.feePercentage w10Fin).take (["a", "a"] : List String).length).map Prod.fst = ["a", "a"] ∧
    (((distribute_prizes w10State.owner w10State.feePercentage w10Fin).take (["a", "a"] : List String).length).map Prod.fst).count "a" = (["a", "a"] : List String).count "a" :=
  have h := finalize_duplicate_winners w10State "c" 0 ["a", "a"] w10Bounty
    (by decide) (by decide) (by decide) (by decide) (by decide) (by decide)
  ⟨h.1, h.2.1, h.2.2 "a"⟩

/-- C6: `participate` is idempotent — on any invariant-respecting state
a successful `participate` leaves a state in which repeating the same
call is an accepted no-op and the caller occurs exactly once in the
bounty's participants — and after every sequence of entry-point
invocations from a fresh contract every stored participants list is
duplicate-free. -/
theorem participate_idempotent_nodup :
    (∀ (s : ContractState) (c : String) (bid : Nat) (s1 : ContractState),
      Inv s → participate s c bid = Except.ok s1 →
      participate s1 c bid = Except.ok s1 ∧
      ∀ b, mapGet s1.bounties bid = some b → b.participants.count c = 1) ∧
    (∀ (ops : List Op) (bid : Nat) (b : Bounty),
      mapGet (runOps initState ops).bounties bid = some b →
      b.participants.Nodup) := by
  constructor
  · intro s c bid s1 hInv h
    obtain ⟨b, hb, hact, hcase⟩ := participate_ok_shape h
    have hnodup := (hInv.1 (bid, b) (mapGet_mem hb)).2.2
    rcases hcase with ⟨hmem, rfl⟩ | ⟨hnm, rfl⟩
    · constructor
      · simp [participate, hb, hact, hmem]
      · intro b1 hb1
        rw [hb] at hb1
        injection hb1 with hbeq
        subst hbeq
        exact List.count_eq_one_of_mem hnodup hmem
    · constructor
      · simp [participate, mapGet_mapSet, hact]
      · intro b1 hb1
        rw [mapGet_mapSet, if_pos rfl] at hb1
        injection hb1 with hbeq
        subst hbeq
        simp [List.count_append, List.count_eq_zero.mpr hnm]
  · intro ops bid b hb
    exact ((inv_runOps inv_init ops).1 (bid, b) (mapGet_mem hb)).2.2

/-- Witness for C6: after `"p"` joins the bounty of `wState`, repeating
the call is a no-op, `"p"` occurs exactly once, and the participants
list reached by the two-operation trace is duplicate-free. -/
theorem participate_idempotent_nodup_witness :
    participate wState1 "p" 0 = Except.ok wState1 ∧
    wBounty1.participants.count "p" = 1 ∧
    wBounty1.participants.Nodup :=
  have h := participate_idempotent_nodup.1 wState "p" 0 wState1 (by decide) (by decide)
  ⟨h.1, h.2 wBounty1 (by decide),
   participate_idempotent_nodup.2 [Op.create "a" 10 [10], Op.part "p" 0] 0 wBounty1 (by decide)⟩

/-- C7: a successful `finalize_bounty` stores the bounty with
`isActive = false`; from then on no entry-point sequence changes the
record again, and both `finalize_bounty` and `participate` on it fail
with `BountyClosed`, leaving the state unchanged. -/
theorem finalize_permanent :
    (∀ (s : ContractState) (c : String) (bid : Nat) (ws : List String)
        (t : List (String × Int)) (s1 : ContractState) (b : Bounty),
      finalize_bounty s c bid ws = Except.ok (t, s1) →
      mapGet s1.bounties bid = some b → b.isActive = false) ∧
    (∀ (s : ContractState) (bid : Nat) (b : Bounty),
      Inv s → mapGet s.bounties bid = some b → b.isActive = false →
      ∀ ops, mapGet (runOps s ops).bounties bid = some b) ∧
    (∀ (s : ContractState) (c : String) (bid : Nat) (ws : List String) (b : Bounty),
      mapGet s.bounties bid = some b → b.isActive = false →
      finalize_bounty s c bid ws = Except.error ContractError.BountyClosed ∧
      participate s c bid = Except.error ContractError.BountyClosed ∧
      step s (Op.fin c bid ws) = s ∧ step s (Op.part c bid) = s) := by
  refine ⟨?_, ?_, ?_⟩
  · intro s c bid ws t s1 b hfin hget
    obtain ⟨b0, hb0, -, -, -, -, -, -, hs1⟩ := finalize_ok_shape hfin
    subst hs1
    rw [mapGet_mapSet, if_pos rfl] at hget
    injection hget with hgeq
    exact hgeq ▸ rfl
  · intro s bid b hInv hb hina ops
    exact preserve_inactive_runOps hInv hb hina ops
  · intro s c bid ws b hb hina
    have hfin : finalize_bounty s c bid ws = Except.error ContractError.BountyClosed := by
      simp [finalize_bounty, hb, hina]
    have hpart : participate s c bid = Except.error ContractError.BountyClosed := by
      simp [participate, hb, hina]
    exact ⟨hfin, hpart, by simp only [step, hfin], by simp only [step, hpart]⟩

/-- Witness for C7: finalizing the bounty of `wState1` stores
`fBounty` inactive; a later `participate` trace leaves it untouched and
the closed-bounty calls fail with `BountyClosed` without changing the
state. -/
theorem finalize_permanent_witness :
    fBounty.isActive = false ∧
    mapGet (runOps fState [Op.part "q" 0]).bounties 0 = some fBounty ∧
    (finalize_bounty fState "q" 0 ["p"] = Except.error ContractError.BountyClosed ∧
      participate fState "q" 0 = Except.error ContractError.BountyClosed ∧
      step fState (Op.fin "q" 0 ["p"]) = fState ∧ step fState (Op.part "q" 0) = fState) :=
  ⟨finalize_permanent.1 wState1 "a" 0 ["p"] [("p", 10)] fState fBounty (by decide) (by decide),
   finalize_permanent.2.1 fState 0 fBounty (by decide) (by decide) (by decide) [Op.part "q" 0],
   finalize_permanent.2.2 fState "q" 0 ["p"] fBounty (by decide) (by decide)⟩

/-- C9: a successful `create_bounty` returns the current counter value
and increments the counter by exactly one; a failed one leaves the
state unchanged; from a fresh contract the counter always equals the
number of successful creates of the trace; and every id below the
counter is bound to a record whose `id` field equals it. -/
theorem bounty_ids_dense :
    (∀ (s : ContractState) (c : String) (d : Nat) (ps : List Int) (bid : Nat) (s1 : ContractState),
      create_bounty s c d ps = Except.ok (bid, s1) →
      bid = s.bountyCount ∧ s1.bountyCount = s.bountyCount + 1) ∧
    (∀ (s : ContractState) (c : String) (d : Nat) (ps : List Int) (e : ContractError),
      create_bounty s c d ps = Except.error e →
      step s (Op.create c d ps) = s) ∧
    (∀ ops : List Op,
      (runOps initState ops).bountyCount = countCreateSuccess initState ops) ∧
    (∀ (ops : List Op) (i : Nat), i < (runOps initState ops).bountyCount →
      (mapGet (runOps initState ops).bounties i).isSome = true) ∧
    (∀ (ops : List Op) (i : Nat) (b : Bounty),
      mapGet (runOps initState ops).bounties i = some b → b.id = i) := by
  refine ⟨?_, ?_, ?_, ?_, ?_⟩
  · intro s c d ps bid s1 h
    obtain ⟨-, -, hbid, hs1⟩ := create_bounty_ok_shape h
    subst hs1
    exact ⟨hbid, rfl⟩
  · intro s c d ps e h
    simp only [step, h]
  · intro ops
    have h := runOps_bountyCount ops initState
    simpa [initState] using h
  · intro ops i hi
    exact (inv_runOps inv_init ops).2 i hi
  · intro ops i b hb
    exact ((inv_runOps inv_init ops).1 (i, b) (mapGet_mem hb)).2.1

/-- Witness for C9: the first create returns id 0 and bumps the counter
to 1; a mismatched-payment create leaves the state unchanged; on a
trace with one successful and one failed create the counter equals 1;
id 0 is bound and its record's `id` field is 0. -/
theorem bounty_ids_dense_witness :
    (0 = initState.bountyCount ∧ wState.bountyCount = initState.bountyCount + 1) ∧
    step initState (Op.create "a" 7 [10]) = initState ∧
    (runOps initState [Op.create "a" 10 [10], Op.create "x" 7 [5]]).bountyCount = countCreateSuccess initState [Op.create "a" 10 [10], Op.create "x" 7 [5]] ∧
    (mapGet (runOps initState [Op.create "a" 10 [10]]).bounties 0).isSome = true ∧
    wBounty.id = 0 :=
  ⟨bounty_ids_dense.1 initState "a" 10 [10] 0 wState (by decide),
   bounty_ids_dense.2.1 initState "a" 7 [10] ContractError.PaymentMismatch (by decide),
   bounty_ids_dense.2.2.1 [Op.create "a" 10 [10], Op.create "x" 7 [5]],
   bounty_ids_dense.2.2.2.1 [Op.create "a" 10 [10]] 0 (by decide),
   bounty_ids_dense.2.2.2.2 [Op.create "a" 10 [10]] 0 wBounty (by decide)⟩

end Bountrip
